import Mathlib

/-!
Verification development for the agentic-finance-review repository.

The provided source files are two graph-generation scripts
(`scripts/generate_graphs.py` and the mock-dataset copy under
`apps/.../assets/generate_graphs.py`): they load a merged transaction
CSV with pandas and compute spending aggregates.  The spec additionally
describes a Ledger Consistency Validation Engine (numeric normalizer,
schema checker, balance consistency checker, diagnostic aggregator)
whose implementing scripts are not among the provided sources; those
components are modelled from the spec, as marked in their doc comments.

Amounts are embedded as rationals (`ℚ`): every amount the scripts
handle is a finite decimal and the spec's ±0.01 tolerance reasoning is
exact decimal arithmetic.  Rational values are constructed with `mkRat`
and combined with the kernel-computable wrappers `qadd`, `qsub`,
`qmul`, `absQ` below; the lemmas `qadd_eq`, `qsub_eq`, `qmul_eq`,
`absQ_eq` identify them with the ordinary field operations on `ℚ`.
-/

namespace FinanceReview

/-! ### Computable rational arithmetic -/

/-- Addition on `ℚ` via `mkRat` (kernel-computable form). -/
def qadd (a b : ℚ) : ℚ :=
  mkRat (a.num * (b.den : ℤ) + b.num * (a.den : ℤ)) (a.den * b.den)

/-- Subtraction on `ℚ` via `mkRat` (kernel-computable form). -/
def qsub (a b : ℚ) : ℚ := qadd a (-b)

/-- Multiplication on `ℚ` via `mkRat` (kernel-computable form). -/
def qmul (a b : ℚ) : ℚ := mkRat (a.num * b.num) (a.den * b.den)

/-- Absolute value on `ℚ` (kernel-computable form). -/
def absQ (q : ℚ) : ℚ := if q < 0 then -q else q

theorem mkRat_eq_q (n : ℤ) (d : ℕ) : mkRat n d = (n : ℚ) / (d : ℚ) := by
  rw [Rat.mkRat_eq_divInt, Rat.divInt_eq_div]
  norm_cast

theorem qadd_eq (a b : ℚ) : qadd a b = a + b := by
  have ha : ((a.den : ℚ)) ≠ 0 := by exact_mod_cast a.den_nz
  have hb : ((b.den : ℚ)) ≠ 0 := by exact_mod_cast b.den_nz
  rw [qadd, mkRat_eq_q]
  push_cast
  conv_rhs => rw [← Rat.num_div_den a, ← Rat.num_div_den b]
  rw [div_add_div _ _ ha hb]
  ring_nf

theorem qsub_eq (a b : ℚ) : qsub a b = a - b := by
  rw [qsub, qadd_eq, sub_eq_add_neg]

theorem qmul_eq (a b : ℚ) : qmul a b = a * b := by
  rw [qmul, mkRat_eq_q]
  push_cast
  conv_rhs => rw [← Rat.num_div_den a, ← Rat.num_div_den b]
  rw [div_mul_div_comm]

theorem absQ_eq (q : ℚ) : absQ q = |q| := by
  rw [absQ]
  rcases lt_or_le q 0 with h | h
  · rw [if_pos h, abs_of_neg h]
  · rw [if_neg (not_lt.mpr h), abs_of_nonneg h]

/-! ### Character/list parsing primitives (shared by the embeddings) -/

/-- Decimal value of a digit list, most significant first
(value of `[]` is `0`). -/
def digitsToNat (l : List Char) : ℕ :=
  l.foldl (fun a c => 10 * a + (c.toNat - 48)) 0

/-- Split a character list at the first occurrence of `sep`:
the part before it and, when `sep` occurs, the part after it. -/
def splitAtChar (sep : Char) : List Char → List Char × Option (List Char)
  | [] => ([], none)
  | c :: cs =>
    if c = sep then ([], some cs)
    else
      let p := splitAtChar sep cs
      (c :: p.1, p.2)

/-- Drop one leading dollar sign, if present. -/
def dropDollar (l : List Char) : List Char :=
  match l with
  | [] => []
  | c :: r => if c = '$' then r else c :: r

/-- Trim leading and trailing whitespace from a character list. -/
def trimChars (l : List Char) : List Char :=
  ((l.dropWhile (fun c => c.isWhitespace)).reverse.dropWhile
    (fun c => c.isWhitespace)).reverse

/-- Parse an unsigned base-10 decimal numeral (`123`, `123.45`, `.45`,
`123.`); `none` when the characters do not form such a numeral. -/
def parseDecimalChars (l : List Char) : Option ℚ :=
  match splitAtChar '.' l with
  | (i, none) =>
    if !i.isEmpty && i.all (fun c => c.isDigit) then
      some (mkRat (digitsToNat i) 1)
    else none
  | (i, some f) =>
    if (!i.isEmpty || !f.isEmpty) && i.all (fun c => c.isDigit)
        && f.all (fun c => c.isDigit) then
      some (mkRat (digitsToNat i * 10 ^ f.length + digitsToNat f) (10 ^ f.length))
    else none

/-- Parse a signed base-10 decimal numeral. -/
def parseSigned (l : List Char) : Option ℚ :=
  match l with
  | [] => parseDecimalChars []
  | c :: r =>
    if c = '-' then (parseDecimalChars r).map (fun q => -q)
    else parseDecimalChars (c :: r)

/-! ### 4.1 Numeric Normalizer (modelled from the spec) -/

/-- Modelled from the spec (§4.1 Failure): error signalling a
malformed, non-numeric, non-blank cell; carries the offending raw
cell text.  The validator scripts implementing the engine are not
among the provided source files. -/
structure ParseError where
  raw : String
  deriving DecidableEq

/-- Remove every thousands separator `,` and one leading currency
symbol `$` from a cell's characters. -/
def stripChars (l : List Char) : List Char :=
  dropDollar (l.filter (fun c => c ≠ ','))

/-- Modelled from the spec (§4.1): `normalize(raw) -> float`.
Absent (`none`) or blank cells normalize to `0`; otherwise the value
with separators and currency symbol stripped is parsed as a base-10
decimal, and a failure to parse is a `ParseError`. -/
def normalize (cell : Option String) : Except ParseError ℚ :=
  match cell with
  | none => Except.ok 0
  | some s =>
    if s.toList.all (fun c => c.isWhitespace) then Except.ok 0
    else
      match parseSigned (stripChars s.toList) with
      | some q => Except.ok q
      | none => Except.error ⟨s⟩

instance {ε α : Type} [DecidableEq ε] [DecidableEq α] :
    DecidableEq (Except ε α) := fun x y =>
  match x, y with
  | .ok a, .ok b => decidable_of_iff (a = b) (by simp)
  | .ok _, .error _ => isFalse (by simp)
  | .error _, .ok _ => isFalse (by simp)
  | .error a, .error b => decidable_of_iff (a = b) (by simp)

/-! ### The spec's numeric-string shape (§8, first testable property) -/

/-- A character allowed in the integer part of the spec's numeric
regex: a digit or a thousands separator. -/
def moneyChar (c : Char) : Bool := c.isDigit || c == ','

/-- The optional fractional tail of the regex: nothing, or a dot
followed by one or more digits. -/
def fracOk (rest : List Char) : Bool :=
  match rest with
  | [] => true
  | c :: f => c == '.' && !f.isEmpty && f.all (fun x => x.isDigit)

/-- Whether a string matches the spec's numeric-string regex. -/
def matchesMoney (s : String) : Bool :=
  !((dropDollar s.toList).takeWhile moneyChar).isEmpty
    && fracOk ((dropDollar s.toList).dropWhile moneyChar)

/-- The value contributed by the fractional tail of a match. -/
def fracValue : List Char → ℚ
  | [] => 0
  | _ :: f => (digitsToNat f : ℚ) / 10 ^ f.length

/-- The reference semantics of the spec's first testable property: the
base-10 value of a matching string with every `,` and the leading `$`
removed. -/
def moneyValue (s : String) : ℚ :=
  (digitsToNat (((dropDollar s.toList).takeWhile moneyChar).filter
      (fun c => c.isDigit)) : ℚ)
    + fracValue ((dropDollar s.toList).dropWhile moneyChar)

/-! ### Diagnostics and currency formatting -/

/-- Spec §3: an immutable diagnostic value
`(source_identifier, optional row_reference, message)`. -/
structure Diagnostic where
  source : String
  rowRef : Option ℕ
  message : String
  deriving DecidableEq

/-- Group the digits of a numeral string in threes from the right. -/
def chunk3 : List Char → List (List Char)
  | [] => []
  | [a] => [[a]]
  | [a, b] => [[a, b]]
  | a :: b :: c :: rest => [a, b, c] :: chunk3 rest

/-- Insert thousands separators into a digit string. -/
def groupDigits (s : String) : String :=
  String.intercalate (",")
    (((chunk3 s.toList.reverse).map (fun l => l.reverse)).reverse.map
      (fun l => String.mk l))

/-- Render an amount as currency with two decimals and thousands
separators (spec §4.3), rounding to the nearest cent. -/
def formatCurrency (q : ℚ) : String :=
  let cents := (qadd (qmul q (mkRat 100 1)) (mkRat 1 2)).floor
  let n := cents.natAbs
  let frac := n % 100
  (if cents < 0 then ("-") else ("")) ++ ("$") ++ groupDigits (toString (n / 100))
    ++ (".") ++ (if frac < 10 then ("0") else ("")) ++ toString frac

/-! ### 4.2 Schema Checker (modelled from the spec) -/

/-- A CSV row: cells keyed by column name (a missing key models a
column absent from the file; a `none` value models a blank cell). -/
abbrev Row := List (String × Option String)

/-- Spec §3 Ledger Table: source identifier, header row, data rows
(row 0 is the most recent transaction). -/
structure Table where
  source : String
  headers : List String
  rows : List Row

/-- Cell of a row under a column name (`none` when absent or blank). -/
def getCell (r : Row) (c : String) : Option String :=
  match r.find? (fun p => p.1 == c) with
  | some p => p.2
  | none => none

/-- Spec §4.2: the fixed ordered set of required columns. -/
def requiredColumns : List String :=
  [("date"), ("description"), ("category"), ("deposit"), ("withdrawal"),
   ("balance"), ("account_name")]

/-- The required columns a table's header is missing. -/
def missingCols (t : Table) : List String :=
  requiredColumns.filter (fun c => decide (¬ c ∈ t.headers))

/-- The single diagnostic naming all missing columns. -/
def schemaDiag (src : String) (missing : List String) : Diagnostic :=
  ⟨src, none, ("missing required columns: ") ++ String.intercalate (", ") missing⟩

/-- Modelled from the spec (§4.2): `check_schema` returns exactly one
diagnostic naming all missing required columns, or nothing. -/
def check_schema (t : Table) : List Diagnostic :=
  if (missingCols t).isEmpty then [] else [schemaDiag t.source (missingCols t)]

/-- Modelled from the spec (§4.2): the separately callable optional
emptiness check. -/
def check_empty (t : Table) : List Diagnostic :=
  if t.rows.isEmpty || t.headers.isEmpty then
    [⟨t.source, none, ("table is empty")⟩]
  else []

/-! ### 4.3 Balance Consistency Checker (modelled from the spec) -/

/-- Spec §4.3 tolerance: ±0.01 absolute. -/
def tolerance : ℚ := mkRat 1 100

/-- The normalized numeric fields of one row, plus its date cell. -/
structure RowVals where
  dep : ℚ
  wd : ℚ
  bal : ℚ
  date : Option String
  deriving DecidableEq

/-- Normalize the `deposit`, `withdrawal`, `balance` cells of a row. -/
def normalizeRow (r : Row) : Except ParseError RowVals := do
  let dep ← normalize (getCell r ("deposit"))
  let wd ← normalize (getCell r ("withdrawal"))
  let bal ← normalize (getCell r ("balance"))
  return ⟨dep, wd, bal, getCell r ("date")⟩

/-- Normalize all rows up front (spec §4.3), failing on the first
unparsable cell. -/
def normalizeRows (rows : List Row) : Except ParseError (List RowVals) :=
  rows.mapM normalizeRow

/-- `expected = balance[i+1] - withdrawal[i] + deposit[i]` where `a` is
row `i` and `b` is row `i+1`. -/
def expectedBal (a b : RowVals) : ℚ := qadd (qsub b.bal a.wd) a.dep

/-- Spec §4.3: the mismatch diagnostic for display row `i + 2`,
carrying the date, the expected and actual values and the three
contributing operands, formatted as currency. -/
def mismatchDiag (src : String) (displayRow : ℕ) (date : Option String)
    (expected actual prevBal wd dep : ℚ) : Diagnostic :=
  ⟨src, some displayRow,
    ("row ") ++ toString displayRow ++ (" (") ++ date.getD ("?")
      ++ ("): expected ") ++ formatCurrency expected ++ (" = ")
      ++ formatCurrency prevBal ++ (" - ") ++ formatCurrency wd ++ (" + ")
      ++ formatCurrency dep ++ (", got ") ++ formatCurrency actual⟩

/-- The diagnostic (if any) for adjacent rows `i` (row `a`, newer) and
`i+1` (row `b`, older): a mismatch strictly beyond the tolerance. -/
def pairDiag (src : String) (i : ℕ) (a b : RowVals) : Option Diagnostic :=
  if tolerance < absQ (qsub (expectedBal a b) a.bal) then
    some (mismatchDiag src (i + 2) a.date (expectedBal a b) a.bal b.bal a.wd a.dep)
  else none

/-- Mismatch diagnostics for all adjacent pairs, in ascending row-index
order, starting at index `i`. -/
def adjDiags (src : String) : ℕ → List RowVals → List Diagnostic
  | _, [] => []
  | _, [_] => []
  | i, a :: b :: rest => (pairDiag src i a b).toList ++ adjDiags src (i + 1) (b :: rest)

/-- All mismatch diagnostics in traversal order: from the
second-to-last row index up to index 0, i.e. oldest to newest. -/
def mismatches (src : String) (vals : List RowVals) : List Diagnostic :=
  (adjDiags src 0 vals).reverse

/-- The summary diagnostic stating how many further mismatches were
suppressed. -/
def summaryDiag (src : String) (n : ℕ) : Diagnostic :=
  ⟨src, none, toString n ++ (" more mismatches suppressed")⟩

/-- Spec §4.3 diagnostic cap: keep at most `cap` mismatch diagnostics
and summarize the rest in one appended diagnostic. -/
def applyCap (src : String) (cap : ℕ) (ds : List Diagnostic) : List Diagnostic :=
  if ds.length ≤ cap then ds else ds.take cap ++ [summaryDiag src (ds.length - cap)]

/-- The capped mismatch list for normalized row values. -/
def checkVals (src : String) (cap : ℕ) (vals : List RowVals) : List Diagnostic :=
  applyCap src cap (mismatches src vals)

/-- The single diagnostic aborting a table whose numeric cell failed to
normalize (spec §4.3 / §7 FormatError). -/
def parseFailDiag (src : String) (e : ParseError) : Diagnostic :=
  ⟨src, none, ("unparsable numeric cell: ") ++ e.raw⟩

/-- Modelled from the spec (§4.3): `check_balance(table)` with the
caller-configurable diagnostic cap.  Fewer than 2 rows trivially
passes; an unparsable cell aborts with a single diagnostic; otherwise
the capped mismatch list is returned. -/
def check_balance (cap : ℕ) (t : Table) : List Diagnostic :=
  if t.rows.length < 2 then []
  else
    match normalizeRows t.rows with
    | .error e => [parseFailDiag t.source e]
    | .ok vals => checkVals t.source cap vals

/-- Modelled from the spec (§4.2/§4.3): per-table validation runs the
schema check first and attempts no row-level check when it fails. -/
def validate_table (cap : ℕ) (t : Table) : List Diagnostic :=
  if (check_schema t).isEmpty then check_balance cap t else check_schema t

/-! ### 4.4 Diagnostic Aggregator (modelled from the spec) -/

/-- Spec §4.4: the engine's decision. -/
inductive Decision where
  | accept : Decision
  | block : String → Decision
  deriving DecidableEq

/-- The blocking reason: a header line followed by every diagnostic's
message, newline-separated. -/
def blockReason (ds : List Diagnostic) : String :=
  ("validation failed:\n") ++ String.intercalate ("\n") (ds.map (fun d => d.message))

/-- Modelled from the spec (§4.4): accept when the union of
diagnostics is empty, otherwise block with the formatted reason. -/
def aggregate (dss : List (List Diagnostic)) : Decision :=
  if dss.flatten.isEmpty then Decision.accept else Decision.block (blockReason dss.flatten)

/-- The diagnostic reporting a missing target path (spec §7). -/
def missingTargetDiag (target : String) : Diagnostic :=
  ⟨target, none, ("target path does not exist: ") ++ target⟩

/-- The outermost boundary's input: the target path, whether it
exists, the tables discovered under it, and the per-table cap. -/
structure ValidationInput where
  target : String
  targetExists : Bool
  tables : List Table
  cap : ℕ

/-- Modelled from the spec (§6/§7): the outermost boundary always
produces a `Decision`; a missing target becomes a diagnostic. -/
def runValidation (inp : ValidationInput) : Decision :=
  if inp.targetExists then
    aggregate (inp.tables.map (fun t => validate_table inp.cap t))
  else aggregate [[missingTargetDiag inp.target]]

/-! ### The graph scripts' loading code (from src) -/

/-- A raw CSV row of `agentic_merged_transactions.csv`: the three
numeric columns may hold a missing/blank cell (`none`, pandas `NaN`)
or a string. -/
structure RawRow where
  date : String
  description : String
  category : String
  deposit : Option String
  withdrawal : Option String
  balance : Option String
  account_name : String
  deriving DecidableEq

/-- Embeds `pd.to_numeric(col, errors="coerce")` on one cell: a
missing cell stays missing; a string cell is parsed as a plain signed
decimal (no separators or currency symbols), unparsable strings
coerce to missing (`NaN`). -/
def toNumericCoerce (cell : Option String) : Option ℚ :=
  cell.bind (fun s => parseSigned (trimChars s.toList))

/-- A cell that is absent (pandas `NaN`) or blank (only whitespace). -/
def isBlankCell : Option String → Bool
  | none => true
  | some s => s.toList.all (fun c => c.isWhitespace)

/-- A loaded transaction row after `load_transactions` column
coercions: `deposit` and `withdrawal` are filled with 0 when missing,
`balance` keeps missing as missing. -/
structure LoadedRow where
  date : String
  description : String
  category : String
  deposit : ℚ
  withdrawal : ℚ
  balance : Option ℚ
  account_name : String
  deriving DecidableEq

/-- Embeds the column coercions of `load_transactions`
(src/scripts/generate_graphs.py lines 65-70, and the identical
module-level load of the assets copy): `deposit` and `withdrawal` get
`pd.to_numeric(..., errors="coerce").fillna(0)`, while `balance` gets
`pd.to_numeric(..., errors="coerce")` with no `fillna`. -/
def loadRow (r : RawRow) : LoadedRow :=
  { date := r.date
    description := r.description
    category := r.category
    deposit := (toNumericCoerce r.deposit).getD 0
    withdrawal := (toNumericCoerce r.withdrawal).getD 0
    balance := toNumericCoerce r.balance
    account_name := r.account_name }

/-- The whole-frame load: every row is coerced; no row is dropped. -/
def load_frame (rows : List RawRow) : List LoadedRow := rows.map loadRow

/-- The filesystem state the graph script observes: whether the target
directory and the CSV inside it exist, and the CSV's rows. -/
structure ScriptEnv where
  dirExists : Bool
  csvExists : Bool
  csvRows : List RawRow

/-- Outcome of running the graph script: an abnormal process exit with
a status code, or the loaded dataframe handed to the plotting code. -/
inductive ScriptOutcome where
  | exited : ℕ → ScriptOutcome
  | loaded : List LoadedRow → ScriptOutcome
  deriving DecidableEq

/-- Embeds `load_transactions` (src/scripts/generate_graphs.py lines
58-70): when the CSV path does not exist the script prints an error
and calls `sys.exit(1)`; otherwise the frame is loaded. -/
def load_transactions (env : ScriptEnv) : ScriptOutcome :=
  if env.csvExists then ScriptOutcome.loaded (load_frame env.csvRows)
  else ScriptOutcome.exited 1

/-- Embeds `main` (src/scripts/generate_graphs.py lines 412-425): a
nonexistent target directory causes `sys.exit(1)` before any load;
otherwise `load_transactions` runs. -/
def script_main (env : ScriptEnv) : ScriptOutcome :=
  if env.dirExists then load_transactions env
  else ScriptOutcome.exited 1

/-! ### The graph scripts' spending aggregates (from src) -/

/-- Embeds `df[df["withdrawal"] > 0]`: the spending rows. -/
def spendingRows (df : List LoadedRow) : List LoadedRow :=
  df.filter (fun r => decide (0 < r.withdrawal))

/-- Add `v` to the total recorded for key `k` (first occurrence kept
in place; a new key is appended). -/
def addTo : List (String × ℚ) → String → ℚ → List (String × ℚ)
  | [], k, v => [(k, v)]
  | p :: rest, k, v =>
    if p.1 = k then (p.1, qadd p.2 v) :: rest else p :: addTo rest k v

/-- Embeds `spending_df.groupby(key)["withdrawal"].sum()` before index
sorting: per-key totals of the withdrawal column. -/
def groupSumBy (key : LoadedRow → String) (df : List LoadedRow) : List (String × ℚ) :=
  df.foldl (fun acc r => addTo acc (key r) r.withdrawal) []

/-- Lexicographic comparison of character lists (computable form of
the string order). -/
def charListLe : List Char → List Char → Bool
  | [], _ => true
  | _ :: _, [] => false
  | a :: as, b :: bs => if a = b then charListLe as bs else decide (a < b)

/-- Ascending lexicographic order on the group keys (pandas `groupby`
returns a key-sorted index). -/
def byKeyAsc (a b : String × ℚ) : Prop := charListLe a.1.toList b.1.toList = true

instance : DecidableRel byKeyAsc :=
  fun a b => inferInstanceAs (Decidable (charListLe a.1.toList b.1.toList = true))

/-- Descending order on the group totals (`sort_values(ascending=False)`). -/
def byValueDesc (a b : String × ℚ) : Prop := b.2 ≤ a.2

instance : DecidableRel byValueDesc :=
  fun a b => inferInstanceAs (Decidable (b.2 ≤ a.2))

instance : IsTotal (String × ℚ) byValueDesc := ⟨fun a b => le_total b.2 a.2⟩

instance : IsTrans (String × ℚ) byValueDesc := ⟨fun _ _ _ h1 h2 => le_trans h2 h1⟩

/-- Embeds `spending_df.groupby("category")["withdrawal"].sum()`
(src/scripts/generate_graphs.py line 117). -/
def categoryTotals (df : List LoadedRow) : List (String × ℚ) :=
  List.insertionSort byKeyAsc (groupSumBy (fun r => r.category) (spendingRows df))

/-- Embeds `spending_df.groupby("description")["withdrawal"].sum()`
(src/scripts/generate_graphs.py line 274). -/
def merchantTotals (df : List LoadedRow) : List (String × ℚ) :=
  List.insertionSort byKeyAsc (groupSumBy (fun r => r.description) (spendingRows df))

/-- Embeds `spending_df.groupby(spending_df["date"].dt.date)
["withdrawal"].sum()` (src/scripts/generate_graphs.py line 317); ISO
date strings identify the calendar day. -/
def dailyTotals (df : List LoadedRow) : List (String × ℚ) :=
  List.insertionSort byKeyAsc (groupSumBy (fun r => r.date) (spendingRows df))

/-- Year, month, day of an ISO `YYYY-MM-DD` date string. -/
def dateYMD (s : String) : ℕ × ℕ × ℕ :=
  match splitAtChar '-' s.toList with
  | (y, none) => (digitsToNat y, 0, 0)
  | (y, some rest) =>
    match splitAtChar '-' rest with
    | (m, none) => (digitsToNat y, digitsToNat m, 0)
    | (m, some d) => (digitsToNat y, digitsToNat m, digitsToNat d)

/-- Zeller's congruence: day-of-week index of a date
(0 = Saturday, 1 = Sunday, ..., 6 = Friday). -/
def weekdayIdx (ymd : ℕ × ℕ × ℕ) : ℕ :=
  let y := if ymd.2.1 < 3 then ymd.1 - 1 else ymd.1
  let m := if ymd.2.1 < 3 then ymd.2.1 + 12 else ymd.2.1
  let d := ymd.2.2
  (d + 13 * (m + 1) / 5 + y % 100 + y % 100 / 4 + y / 100 / 4 + 5 * (y / 100)) % 7

/-- Embeds `spending_df["date"].dt.day_name()` for ISO date strings. -/
def dayName (s : String) : String :=
  ([("Saturday"), ("Sunday"), ("Monday"), ("Tuesday"), ("Wednesday"),
    ("Thursday"), ("Friday")]).getD (weekdayIdx (dateYMD s)) ("")

/-- The fixed weekday display order of the scripts. -/
def weekdayOrder : List String :=
  [("Monday"), ("Tuesday"), ("Wednesday"), ("Thursday"), ("Friday"),
   ("Saturday"), ("Sunday")]

/-- Embeds `spending_df.groupby("weekday")["withdrawal"].sum()
.reindex(weekday_order).fillna(0)` (src/scripts/generate_graphs.py
lines 352-363). -/
def weekdayTotals (df : List LoadedRow) : List (String × ℚ) :=
  weekdayOrder.map (fun w =>
    (w, ((groupSumBy (fun r => dayName r.date) (spendingRows df)).lookup w).getD 0))

/-- `category_totals.sort_values(ascending=False)`
(src/scripts/generate_graphs.py line 118). -/
def sortedCatTotals (df : List LoadedRow) : List (String × ℚ) :=
  List.insertionSort byValueDesc (categoryTotals df)

/-- `category_totals.tail(len - 8).sum()`: the combined total of all
categories beyond the largest 8. -/
def otherTotal (ct : List (String × ℚ)) : ℚ :=
  ((ct.drop 8).map (fun p => p.2)).foldl qadd 0

/-- Embeds the pie-chart data selection
(src/scripts/generate_graphs.py lines 120-129): with more than 8
categories, keep the top 8 and append a single positive "Other"
entry. -/
def topCategories (df : List LoadedRow) : List (String × ℚ) :=
  let ct := sortedCatTotals df
  if 8 < ct.length then
    if 0 < otherTotal ct then ct.take 8 ++ [(("Other"), otherTotal ct)]
    else ct.take 8
  else ct

/-- Two loaded rows that agree on every field except `deposit`. -/
def sameExceptDeposit (r₁ r₂ : LoadedRow) : Prop :=
  r₁.date = r₂.date ∧ r₁.description = r₂.description
    ∧ r₁.category = r₂.category ∧ r₁.withdrawal = r₂.withdrawal
    ∧ r₁.balance = r₂.balance ∧ r₁.account_name = r₂.account_name

/-! ### Concrete instances used by the claim checks -/

/-- Spec §8 Scenario A: a 3-row exactly-consistent ledger. -/
def tA : Table :=
  ⟨("ledger.csv"), requiredColumns,
   [[(("date"), some ("2026-01-03")), (("deposit"), some ("50.00")),
     (("withdrawal"), some ("0")), (("balance"), some ("130.00"))],
    [(("date"), some ("2026-01-02")), (("deposit"), some ("")),
     (("withdrawal"), some ("20.00")), (("balance"), some ("80.00"))],
    [(("date"), some ("2026-01-01")), (("deposit"), none),
     (("withdrawal"), none), (("balance"), some ("100.00"))]]⟩

/-- The normalized rows of `tA`. -/
def valsA : List RowVals :=
  [⟨mkRat 5000 100, mkRat 0 1, mkRat 13000 100, some ("2026-01-03")⟩,
   ⟨0, mkRat 2000 100, mkRat 8000 100, some ("2026-01-02")⟩,
   ⟨0, 0, mkRat 10000 100, some ("2026-01-01")⟩]

/-- A 2-row table with a malformed deposit cell. -/
def tBad : Table :=
  ⟨("ledger.csv"), requiredColumns,
   [[(("deposit"), some ("abc")), (("balance"), some ("10"))],
    [(("balance"), some ("10"))]]⟩

/-- A table whose header is missing the `account_name` column
(spec §8 Scenario D). -/
def tMissing : Table :=
  ⟨("ledger.csv"),
   [("date"), ("description"), ("category"), ("deposit"), ("withdrawal"),
    ("balance")],
   [[(("date"), some ("2026-01-01")), (("balance"), some ("10"))]]⟩

/-- A raw CSV row whose balance cell is missing. -/
def rawBlankBal : RawRow :=
  ⟨("2026-01-02"), ("coffee"), ("dining"), some ("1.00"), some ("2.00"),
   none, ("checking")⟩

/-- A raw CSV row with a missing deposit, a whitespace-only
withdrawal, and a missing balance. -/
def rawBlankAll : RawRow :=
  ⟨("2026-01-02"), ("x"), ("misc"), none, some ("  "), none, ("checking")⟩

/-- Spec §8 Scenario C: a 10-row ledger (all movements blank) whose
balances produce exactly 7 adjacent-pair mismatches. -/
def t10 : Table :=
  ⟨("ledger.csv"), requiredColumns,
   [[(("date"), some ("2026-01-10")), (("balance"), some ("1.00"))],
    [(("date"), some ("2026-01-09")), (("balance"), some ("1.00"))],
    [(("date"), some ("2026-01-08")), (("balance"), some ("1.00"))],
    [(("date"), some ("2026-01-07")), (("balance"), some ("2.00"))],
    [(("date"), some ("2026-01-06")), (("balance"), some ("3.00"))],
    [(("date"), some ("2026-01-05")), (("balance"), some ("4.00"))],
    [(("date"), some ("2026-01-04")), (("balance"), some ("5.00"))],
    [(("date"), some ("2026-01-03")), (("balance"), some ("6.00"))],
    [(("date"), some ("2026-01-02")), (("balance"), some ("7.00"))],
    [(("date"), some ("2026-01-01")), (("balance"), some ("8.00"))]]⟩

/-- The normalized rows of `t10`. -/
def vals10 : List RowVals :=
  [⟨0, 0, mkRat 100 100, some ("2026-01-10")⟩,
   ⟨0, 0, mkRat 100 100, some ("2026-01-09")⟩,
   ⟨0, 0, mkRat 100 100, some ("2026-01-08")⟩,
   ⟨0, 0, mkRat 200 100, some ("2026-01-07")⟩,
   ⟨0, 0, mkRat 300 100, some ("2026-01-06")⟩,
   ⟨0, 0, mkRat 400 100, some ("2026-01-05")⟩,
   ⟨0, 0, mkRat 500 100, some ("2026-01-04")⟩,
   ⟨0, 0, mkRat 600 100, some ("2026-01-03")⟩,
   ⟨0, 0, mkRat 700 100, some ("2026-01-02")⟩,
   ⟨0, 0, mkRat 800 100, some ("2026-01-01")⟩]

/-- The older row of the tolerance-boundary pair: balance 100.00, no
movement. -/
def rowOld : RowVals := ⟨0, 0, mkRat 100 1, none⟩

/-- A newer row deviating from its expected balance by exactly 0.01
(expected 80.00, recorded 80.01). -/
def rowPass : RowVals := ⟨0, mkRat 20 1, mkRat 8001 100, none⟩

/-- A newer row deviating from its expected balance by 0.0100001. -/
def rowFail : RowVals := ⟨0, mkRat 20 1, mkRat 800100001 10000000, none⟩

/-- A one-row frame with deposit 5. -/
def dfDep5 : List LoadedRow :=
  [⟨("2026-01-01"), ("shop"), ("food"), mkRat 5 1, mkRat 3 1,
    some (mkRat 10 1), ("a")⟩]

/-- The same frame as `dfDep5` but with deposit 9. -/
def dfDep9 : List LoadedRow :=
  [⟨("2026-01-01"), ("shop"), ("food"), mkRat 9 1, mkRat 3 1,
    some (mkRat 10 1), ("a")⟩]

/-- A loaded row with no withdrawal (a pure deposit row). -/
def rowNoSpend : LoadedRow :=
  ⟨("2026-01-02"), ("payroll"), ("income"), mkRat 7 1, 0, some (mkRat 17 1), ("a")⟩

/-- A frame spending across nine distinct categories (totals 1..9). -/
def dfNine : List LoadedRow :=
  [⟨("2026-01-01"), ("m1"), ("c1"), 0, mkRat 1 1, none, ("a")⟩,
   ⟨("2026-01-01"), ("m2"), ("c2"), 0, mkRat 2 1, none, ("a")⟩,
   ⟨("2026-01-01"), ("m3"), ("c3"), 0, mkRat 3 1, none, ("a")⟩,
   ⟨("2026-01-01"), ("m4"), ("c4"), 0, mkRat 4 1, none, ("a")⟩,
   ⟨("2026-01-01"), ("m5"), ("c5"), 0, mkRat 5 1, none, ("a")⟩,
   ⟨("2026-01-01"), ("m6"), ("c6"), 0, mkRat 6 1, none, ("a")⟩,
   ⟨("2026-01-01"), ("m7"), ("c7"), 0, mkRat 7 1, none, ("a")⟩,
   ⟨("2026-01-01"), ("m8"), ("c8"), 0, mkRat 8 1, none, ("a")⟩,
   ⟨("2026-01-01"), ("m9"), ("c9"), 0, mkRat 9 1, none, ("a")⟩]

end FinanceReview

/-! ### Helper lemmas: balance checker -/

namespace FinanceReview

theorem pairDiag_none_of_exact (src : String) (i : ℕ) {a b : RowVals}
    (h : a.bal = expectedBal a b) : pairDiag src i a b = none := by
  have h0 : absQ (qsub (expectedBal a b) a.bal) = 0 := by
    rw [← h, qsub_eq, sub_self, absQ, if_neg (lt_irrefl 0)]
  rw [pairDiag, h0, if_neg (by decide)]

theorem adjDiags_eq_nil (src : String) :
    ∀ (i : ℕ) (vals : List RowVals),
      List.Chain' (fun a b => a.bal = expectedBal a b) vals →
      adjDiags src i vals = []
  | _, [], _ => rfl
  | _, [_], _ => rfl
  | i, a :: b :: rest, h => by
    rw [List.chain'_cons] at h
    simp only [adjDiags, pairDiag_none_of_exact src i h.1, Option.toList,
      List.nil_append]
    exact adjDiags_eq_nil src (i + 1) (b :: rest) h.2

/-- C1: for every ledger table in which every adjacent row pair
satisfies `balance[i] = balance[i+1] - withdrawal[i] + deposit[i]`
exactly, `check_balance` returns an empty diagnostic list. -/
theorem c1_check_balance_exact_ledger (cap : ℕ) (t : Table) (vals : List RowVals)
    (hnorm : normalizeRows t.rows = Except.ok vals)
    (hexact : List.Chain' (fun a b => a.bal = b.bal - a.wd + a.dep) vals) :
    check_balance cap t = [] := by
  have hex : List.Chain' (fun a b => a.bal = expectedBal a b) vals :=
    hexact.imp (fun x y hab => by simp only [expectedBal, qadd_eq, qsub_eq]; exact hab)
  rw [check_balance]
  split
  · rfl
  · simp only [hnorm]
    rw [checkVals, mismatches, adjDiags_eq_nil t.source 0 vals hex]
    simp [applyCap]

/-- Witness for C1: spec §8 Scenario A, an exactly-consistent 3-row
ledger, is accepted with an empty diagnostic list. -/
theorem c1_witness :
    normalizeRows tA.rows = Except.ok valsA
    ∧ List.Chain' (fun a b => a.bal = b.bal - a.wd + a.dep) valsA
    ∧ check_balance 3 tA = [] := by
  have h1 : normalizeRows tA.rows = Except.ok valsA := by decide
  have h2 : List.Chain' (fun a b => a.bal = b.bal - a.wd + a.dep) valsA := by
    simp only [valsA, List.chain'_cons, List.chain'_singleton, and_true]
    constructor <;> norm_num [mkRat_eq_q]
  exact ⟨h1, h2, c1_check_balance_exact_ledger 3 tA valsA h1 h2⟩

end FinanceReview

namespace FinanceReview

/-! ### Helper lemmas: blank cells -/

theorem trimChars_of_blank (l : List Char)
    (h : l.all (fun c => c.isWhitespace) = true) : trimChars l = [] := by
  have h1 : l.dropWhile (fun c => c.isWhitespace) = [] := by
    rw [List.dropWhile_eq_nil_iff]
    intro x hx
    exact List.all_eq_true.mp h x hx
  rw [trimChars, h1]
  rfl

theorem toNumericCoerce_blank (c : Option String) (h : isBlankCell c = true) :
    toNumericCoerce c = none := by
  cases c with
  | none => rfl
  | some s =>
    simp only [isBlankCell] at h
    simp only [toNumericCoerce, Option.bind]
    rw [trimChars_of_blank _ h]
    rfl

/-- C2 (amended): in the graph scripts' load, a missing or blank
`deposit` or `withdrawal` cell is normalized to 0, while a missing or
blank `balance` cell is coerced to a missing value (`NaN`), not 0. -/
theorem c2_blank_cell_loading (r : RawRow) :
    (isBlankCell r.deposit = true → (loadRow r).deposit = 0)
    ∧ (isBlankCell r.withdrawal = true → (loadRow r).withdrawal = 0)
    ∧ (isBlankCell r.balance = true → (loadRow r).balance = none) := by
  refine ⟨?_, ?_, ?_⟩ <;> intro h <;>
    simp [loadRow, toNumericCoerce_blank _ h]

/-- C2 counterexample: a row whose balance cell is missing loads with
a missing balance, not with the number 0. -/
theorem c2_counterexample :
    (loadRow rawBlankBal).balance = none
    ∧ ¬((loadRow rawBlankBal).balance = some 0) :=
  ⟨rfl, by decide⟩

/-- Witness for C2: a row with missing deposit, whitespace-only
withdrawal and missing balance. -/
theorem c2_witness :
    isBlankCell rawBlankAll.deposit = true
    ∧ isBlankCell rawBlankAll.withdrawal = true
    ∧ isBlankCell rawBlankAll.balance = true
    ∧ (loadRow rawBlankAll).deposit = 0
    ∧ (loadRow rawBlankAll).withdrawal = 0
    ∧ (loadRow rawBlankAll).balance = none :=
  ⟨by decide, by decide, by decide,
   (c2_blank_cell_loading rawBlankAll).1 (by decide),
   (c2_blank_cell_loading rawBlankAll).2.1 (by decide),
   (c2_blank_cell_loading rawBlankAll).2.2 (by decide)⟩

/-- C4: a present, non-blank cell that does not parse as a tolerant
decimal after stripping makes the normalizer fail with a `ParseError`
(never a number), and `check_balance` converts that failure into a
single diagnostic instead of propagating it. -/
theorem c4_parse_error_handling :
    (∀ s : String, ¬(s.toList.all (fun c => c.isWhitespace) = true) →
      parseSigned (stripChars s.toList) = none →
      normalize (some s) = Except.error ⟨s⟩)
    ∧ (∀ (cap : ℕ) (t : Table) (e : ParseError), 2 ≤ t.rows.length →
        normalizeRows t.rows = Except.error e →
        check_balance cap t = [parseFailDiag t.source e]) := by
  constructor
  · intro s hb hp
    simp only [normalize, if_neg hb, hp]
  · intro cap t e h2 herr
    rw [check_balance, if_neg (by omega)]
    simp only [herr]

/-- Witness for C4: the cell text `abc` is non-blank and unparsable;
normalizing it fails, and a 2-row table containing it yields exactly
the one parse-failure diagnostic. -/
theorem c4_witness :
    ¬((("abc") : String).toList.all (fun c => c.isWhitespace) = true)
    ∧ parseSigned (stripChars (("abc") : String).toList) = none
    ∧ normalize (some ("abc")) = Except.error ⟨("abc")⟩
    ∧ normalizeRows tBad.rows = Except.error ⟨("abc")⟩
    ∧ check_balance 3 tBad = [parseFailDiag tBad.source ⟨("abc")⟩] :=
  ⟨by decide, by decide,
   c4_parse_error_handling.1 ("abc") (by decide) (by decide),
   by decide,
   c4_parse_error_handling.2 3 tBad ⟨("abc")⟩ (by decide) (by decide)⟩

/-- C5: a table missing required columns gets exactly one schema
diagnostic listing all and only the missing columns, and per-table
validation returns it without running the balance check. -/
theorem c5_check_schema_missing (cap : ℕ) (t : Table)
    (h : missingCols t ≠ []) :
    check_schema t = [schemaDiag t.source (missingCols t)]
    ∧ (∀ c, c ∈ missingCols t ↔ (c ∈ requiredColumns ∧ c ∉ t.headers))
    ∧ validate_table cap t = [schemaDiag t.source (missingCols t)] := by
  have hb : ¬((missingCols t).isEmpty = true) := by
    simpa [List.isEmpty_iff] using h
  have h1 : check_schema t = [schemaDiag t.source (missingCols t)] := by
    rw [check_schema, if_neg hb]
  refine ⟨h1, ?_, ?_⟩
  · intro c
    simp [missingCols, List.mem_filter]
  · rw [validate_table, if_neg (by simp [h1]), h1]

/-- Witness for C5: spec §8 Scenario D, a table missing only
`account_name`. -/
theorem c5_witness :
    missingCols tMissing = [("account_name")]
    ∧ check_schema tMissing = [schemaDiag tMissing.source [("account_name")]]
    ∧ validate_table 3 tMissing
        = [schemaDiag tMissing.source [("account_name")]] := by
  have he : missingCols tMissing = [("account_name")] := by decide
  have hc := c5_check_schema_missing 3 tMissing (by decide)
  exact ⟨he, by rw [hc.1, he], by rw [hc.2.2, he]⟩

/-- C8 (amended): the validation engine's outermost boundary (modelled
from the spec) turns a missing target into a blocking decision that
carries the missing-target diagnostic, whereas the graph scripts in
the provided sources terminate the process with exit status 1 when the
target directory or the CSV is missing. -/
theorem c8_boundary_behavior :
    (∀ inp : ValidationInput, inp.targetExists = false →
      runValidation inp
        = Decision.block (blockReason [missingTargetDiag inp.target]))
    ∧ (∀ env : ScriptEnv, env.dirExists = false →
        script_main env = ScriptOutcome.exited 1)
    ∧ (∀ env : ScriptEnv, env.dirExists = true → env.csvExists = false →
        script_main env = ScriptOutcome.exited 1) := by
  refine ⟨?_, ?_, ?_⟩
  · intro inp h
    rw [runValidation, if_neg (by simp [h])]
    rfl
  · intro env h
    rw [script_main, if_neg (by simp [h])]
  · intro env h1 h2
    rw [script_main, if_pos (by simp [h1]), load_transactions,
      if_neg (by simp [h2])]

/-- C8 counterexample: on a nonexistent target directory the graph
script terminates the process with exit status 1 instead of returning
a decision value. -/
theorem c8_counterexample :
    script_main ⟨false, true, []⟩ = ScriptOutcome.exited 1 := rfl

/-- Witness for C8: a missing target blocks with the missing-target
diagnostic in the engine model, and exits the graph script. -/
theorem c8_witness :
    runValidation ⟨("missing-dir"), false, [], 3⟩
      = Decision.block (blockReason [missingTargetDiag ("missing-dir")])
    ∧ script_main ⟨true, false, []⟩ = ScriptOutcome.exited 1 :=
  ⟨c8_boundary_behavior.1 ⟨("missing-dir"), false, [], 3⟩ rfl,
   c8_boundary_behavior.2.2 ⟨true, false, []⟩ rfl rfl⟩

end FinanceReview

namespace FinanceReview

/-- C6: when the number of balance mismatches exceeds the cap,
`check_balance` returns exactly `cap` detailed mismatch diagnostics
(the first `cap` in oldest-to-newest traversal order) plus exactly one
summary diagnostic counting the suppressed mismatches, so `cap + 1`
entries in total. -/
theorem c6_diagnostic_cap (cap : ℕ) (t : Table) (vals : List RowVals)
    (h2 : 2 ≤ t.rows.length)
    (hnorm : normalizeRows t.rows = Except.ok vals)
    (hover : cap < (mismatches t.source vals).length) :
    check_balance cap t
      = (mismatches t.source vals).take cap
        ++ [summaryDiag t.source ((mismatches t.source vals).length - cap)]
    ∧ (check_balance cap t).length = cap + 1 := by
  have hcb : check_balance cap t
      = (mismatches t.source vals).take cap
        ++ [summaryDiag t.source ((mismatches t.source vals).length - cap)] := by
    rw [check_balance, if_neg (by omega)]
    simp only [hnorm]
    rw [checkVals, applyCap, if_neg (by omega)]
  refine ⟨hcb, ?_⟩
  rw [hcb, List.length_append, List.length_take,
    min_eq_left (le_of_lt hover)]
  rfl

/-- Witness for C6: spec §8 Scenario C, a 10-row ledger with 7
mismatches and cap 3 yields 3 detailed diagnostics plus the summary
diagnostic counting 4 suppressed ones. -/
theorem c6_witness :
    normalizeRows t10.rows = Except.ok vals10
    ∧ (mismatches t10.source vals10).length = 7
    ∧ check_balance 3 t10
        = (mismatches t10.source vals10).take 3
          ++ [summaryDiag t10.source 4]
    ∧ (check_balance 3 t10).length = 4 := by
  have h1 : normalizeRows t10.rows = Except.ok vals10 := by decide
  have h7 : (mismatches t10.source vals10).length = 7 := by decide
  have hc := c6_diagnostic_cap 3 t10 vals10 (by decide) h1 (by decide)
  refine ⟨h1, h7, ?_, hc.2⟩
  rw [hc.1, h7]

/-- C7: the tolerance boundary is exclusive.  For any adjacent row
pair, a deviation `|expected - balance|` equal to exactly 0.01
produces no diagnostic, and a deviation strictly greater than 0.01
produces the mismatch diagnostic. -/
theorem c7_tolerance_boundary (src : String) (cap : ℕ) (a b : RowVals)
    (hcap : 1 ≤ cap) :
    (|expectedBal a b - a.bal| = tolerance → checkVals src cap [a, b] = [])
    ∧ (tolerance < |expectedBal a b - a.bal| →
        checkVals src cap [a, b]
          = [mismatchDiag src 2 a.date (expectedBal a b) a.bal b.bal a.wd a.dep]) := by
  have habs : absQ (qsub (expectedBal a b) a.bal) = |expectedBal a b - a.bal| := by
    rw [absQ_eq, qsub_eq]
  constructor
  · intro h
    have hnot : ¬(tolerance < absQ (qsub (expectedBal a b) a.bal)) := by
      rw [habs, h]
      exact lt_irrefl _
    rw [checkVals, mismatches]
    simp only [adjDiags, pairDiag, if_neg hnot, Option.toList, List.nil_append,
      List.reverse_nil]
    simp [applyCap]
  · intro h
    have hlt : tolerance < absQ (qsub (expectedBal a b) a.bal) := by
      rw [habs]
      exact h
    rw [checkVals, mismatches]
    simp only [adjDiags, pairDiag, if_pos hlt, Option.toList, List.append_nil]
    rw [applyCap, if_pos (by simpa using hcap)]
    simp

/-- Witness for C7: a recorded balance of 80.01 against an expected
80.00 (deviation exactly 0.01) passes; a recorded balance of
80.0100001 (deviation 0.0100001) fails with the mismatch
diagnostic. -/
theorem c7_witness :
    |expectedBal rowPass rowOld - rowPass.bal| = tolerance
    ∧ checkVals ("t") 3 [rowPass, rowOld] = []
    ∧ tolerance < |expectedBal rowFail rowOld - rowFail.bal|
    ∧ checkVals ("t") 3 [rowFail, rowOld]
        = [mismatchDiag ("t") 2 rowFail.date (expectedBal rowFail rowOld)
            rowFail.bal rowOld.bal rowFail.wd rowFail.dep] := by
  have e1 : |expectedBal rowPass rowOld - rowPass.bal| = tolerance := by
    rw [← qsub_eq, ← absQ_eq]
    decide
  have e2 : tolerance < |expectedBal rowFail rowOld - rowFail.bal| := by
    rw [← qsub_eq, ← absQ_eq]
    decide
  exact ⟨e1, (c7_tolerance_boundary ("t") 3 rowPass rowOld (by decide)).1 e1,
    e2, (c7_tolerance_boundary ("t") 3 rowFail rowOld (by decide)).2 e2⟩

end FinanceReview

namespace FinanceReview

/-! ### Helper lemmas: spending aggregates -/

theorem spendingRows_forall₂ {l₁ l₂ : List LoadedRow}
    (h : List.Forall₂ sameExceptDeposit l₁ l₂) :
    List.Forall₂ sameExceptDeposit (spendingRows l₁) (spendingRows l₂) := by
  induction h with
  | nil => exact List.Forall₂.nil
  | @cons a b t₁ t₂ hr ht ih =>
    simp only [spendingRows, List.filter_cons] at *
    rw [hr.2.2.2.1]
    by_cases hw : decide (0 < b.withdrawal) = true
    · rw [if_pos hw, if_pos hw]
      exact List.Forall₂.cons hr ih
    · rw [if_neg hw, if_neg hw]
      exact ih

theorem foldl_addTo_eq (key : LoadedRow → String)
    (hkey : ∀ r₁ r₂, sameExceptDeposit r₁ r₂ → key r₁ = key r₂)
    {l₁ l₂ : List LoadedRow} (h : List.Forall₂ sameExceptDeposit l₁ l₂) :
    ∀ acc, List.foldl (fun acc r => addTo acc (key r) r.withdrawal) acc l₁
      = List.foldl (fun acc r => addTo acc (key r) r.withdrawal) acc l₂ := by
  induction h with
  | nil => intro acc; rfl
  | @cons a b t₁ t₂ hr ht ih =>
    intro acc
    simp only [List.foldl_cons]
    rw [hkey _ _ hr, hr.2.2.2.1]
    exact ih _

theorem groupSumBy_eq (key : LoadedRow → String)
    (hkey : ∀ r₁ r₂, sameExceptDeposit r₁ r₂ → key r₁ = key r₂)
    {l₁ l₂ : List LoadedRow} (h : List.Forall₂ sameExceptDeposit l₁ l₂) :
    groupSumBy key l₁ = groupSumBy key l₂ :=
  foldl_addTo_eq key hkey h []

/-- C9: every spending aggregate (per category, per merchant, per day,
per weekday) is computed only over rows with withdrawal strictly
greater than 0, and two loaded frames differing only in their deposit
column produce identical spending aggregates. -/
theorem c9_deposit_invariance :
    (∀ df₁ df₂ : List LoadedRow, List.Forall₂ sameExceptDeposit df₁ df₂ →
      categoryTotals df₁ = categoryTotals df₂
      ∧ merchantTotals df₁ = merchantTotals df₂
      ∧ dailyTotals df₁ = dailyTotals df₂
      ∧ weekdayTotals df₁ = weekdayTotals df₂)
    ∧ (∀ (r : LoadedRow) (df : List LoadedRow), ¬(0 < r.withdrawal) →
        categoryTotals (r :: df) = categoryTotals df
        ∧ merchantTotals (r :: df) = merchantTotals df
        ∧ dailyTotals (r :: df) = dailyTotals df
        ∧ weekdayTotals (r :: df) = weekdayTotals df) := by
  constructor
  · intro df₁ df₂ h
    have hs := spendingRows_forall₂ h
    have hcat := groupSumBy_eq (fun r => r.category)
      (fun r₁ r₂ hr => hr.2.2.1) hs
    have hdesc := groupSumBy_eq (fun r => r.description)
      (fun r₁ r₂ hr => hr.2.1) hs
    have hdate := groupSumBy_eq (fun r => r.date)
      (fun r₁ r₂ hr => hr.1) hs
    have hday := groupSumBy_eq (fun r => dayName r.date)
      (fun r₁ r₂ hr => congrArg dayName hr.1) hs
    exact ⟨by rw [categoryTotals, hcat, categoryTotals],
      by rw [merchantTotals, hdesc, merchantTotals],
      by rw [dailyTotals, hdate, dailyTotals],
      by rw [weekdayTotals, hday, weekdayTotals]⟩
  · intro r df hw
    have hsp : spendingRows (r :: df) = spendingRows df := by
      simp only [spendingRows, List.filter_cons]
      rw [if_neg (by simpa using hw)]
    exact ⟨by rw [categoryTotals, hsp, categoryTotals],
      by rw [merchantTotals, hsp, merchantTotals],
      by rw [dailyTotals, hsp, dailyTotals],
      by rw [weekdayTotals, hsp, weekdayTotals]⟩

/-- Witness for C9: two one-row frames differing only in deposit (5
vs 9) have identical aggregates, and prepending a zero-withdrawal row
leaves the aggregates unchanged. -/
theorem c9_witness :
    List.Forall₂ sameExceptDeposit dfDep5 dfDep9
    ∧ categoryTotals dfDep5 = categoryTotals dfDep9
    ∧ merchantTotals dfDep5 = merchantTotals dfDep9
    ∧ dailyTotals dfDep5 = dailyTotals dfDep9
    ∧ weekdayTotals dfDep5 = weekdayTotals dfDep9
    ∧ ¬(0 < rowNoSpend.withdrawal)
    ∧ categoryTotals (rowNoSpend :: dfDep5) = categoryTotals dfDep5 := by
  have hf : List.Forall₂ sameExceptDeposit dfDep5 dfDep9 :=
    List.Forall₂.cons ⟨rfl, rfl, rfl, rfl, rfl, rfl⟩ List.Forall₂.nil
  have h1 := c9_deposit_invariance.1 dfDep5 dfDep9 hf
  have hw : ¬(0 < rowNoSpend.withdrawal) := by decide
  exact ⟨hf, h1.1, h1.2.1, h1.2.2.1, h1.2.2.2, hw,
    (c9_deposit_invariance.2 rowNoSpend dfDep5 hw).1⟩

/-- C10: the pie data has at most 9 entries; with more than 8
categories it is the 8 largest totals (every kept entry is at least
every dropped entry) followed by a single "Other" entry exactly when
the remaining categories' combined total is strictly positive. -/
theorem c10_top_categories (df : List LoadedRow) :
    (topCategories df).length ≤ 9
    ∧ (8 < (sortedCatTotals df).length →
        topCategories df
          = (sortedCatTotals df).take 8
            ++ (if 0 < otherTotal (sortedCatTotals df) then
                  [(("Other"), otherTotal (sortedCatTotals df))]
                else [])
        ∧ ∀ p ∈ (sortedCatTotals df).take 8,
            ∀ q ∈ (sortedCatTotals df).drop 8, q.2 ≤ p.2) := by
  constructor
  · rw [topCategories]
    by_cases h8 : 8 < (sortedCatTotals df).length
    · rw [if_pos h8]
      have hm := min_le_left 8 (sortedCatTotals df).length
      by_cases ho : 0 < otherTotal (sortedCatTotals df)
      · rw [if_pos ho, List.length_append, List.length_take]
        simp only [List.length_singleton]
        omega
      · rw [if_neg ho, List.length_take]
        omega
    · rw [if_neg h8]
      omega
  · intro h8
    constructor
    · rw [topCategories, if_pos h8]
      by_cases ho : 0 < otherTotal (sortedCatTotals df)
      · rw [if_pos ho, if_pos ho]
      · rw [if_neg ho, if_neg ho, List.append_nil]
    · have hs : List.Sorted byValueDesc (sortedCatTotals df) :=
        List.sorted_insertionSort byValueDesc (categoryTotals df)
      have hp : List.Pairwise byValueDesc
          ((sortedCatTotals df).take 8 ++ (sortedCatTotals df).drop 8) := by
        rwa [List.take_append_drop]
      intro p hp8 q hq8
      exact (List.pairwise_append.mp hp).2.2 p hp8 q hq8

/-- Witness for C10: a frame spending in 9 categories has more than 8
category totals, so the theorem's capped shape applies to it. -/
theorem c10_witness :
    8 < (sortedCatTotals dfNine).length
    ∧ (topCategories dfNine).length ≤ 9
    ∧ (topCategories dfNine
        = (sortedCatTotals dfNine).take 8
          ++ (if 0 < otherTotal (sortedCatTotals dfNine) then
                [(("Other"), otherTotal (sortedCatTotals dfNine))]
              else [])
      ∧ ∀ p ∈ (sortedCatTotals dfNine).take 8,
          ∀ q ∈ (sortedCatTotals dfNine).drop 8, q.2 ≤ p.2) := by
  have h8 : 8 < (sortedCatTotals dfNine).length := by decide
  exact ⟨h8, (c10_top_categories dfNine).1, (c10_top_categories dfNine).2 h8⟩

end FinanceReview

namespace FinanceReview

/-! ### Helper lemmas: the normalizer on regex-matching strings -/

theorem splitAtChar_of_not_mem (sep : Char) :
    ∀ l : List Char, (∀ c ∈ l, ¬(c = sep)) → splitAtChar sep l = (l, none)
  | [], _ => rfl
  | c :: cs, h => by
    simp only [splitAtChar, if_neg (h c (List.mem_cons_self c cs))]
    rw [splitAtChar_of_not_mem sep cs (fun x hx => h x (List.mem_cons_of_mem c hx))]

theorem splitAtChar_append (sep : Char) :
    ∀ (i f : List Char), (∀ c ∈ i, ¬(c = sep)) →
      splitAtChar sep (i ++ sep :: f) = (i, some f)
  | [], f, _ => by simp [splitAtChar]
  | c :: i, f, h => by
    simp only [List.cons_append, splitAtChar,
      if_neg (h c (List.mem_cons_self c i))]
    rw [show (i.append (sep :: f)) = i ++ sep :: f from rfl,
      splitAtChar_append sep i f (fun x hx => h x (List.mem_cons_of_mem c hx))]

theorem dropDollar_of_no_dollar :
    ∀ l : List Char, (∀ c ∈ l, ¬(c = '$')) → dropDollar l = l
  | [], _ => rfl
  | c :: r, h => by
    rw [dropDollar, if_neg (h c (List.mem_cons_self c r))]

theorem mem_dropDollar {a : Char} {l : List Char} (h : a ∈ dropDollar l) :
    a ∈ l := by
  cases l with
  | nil => exact h
  | cons c r =>
    rw [dropDollar] at h
    by_cases hc : c = '$'
    · rw [if_pos hc] at h
      exact List.mem_cons_of_mem c h
    · rwa [if_neg hc] at h

theorem isDigit_ne (c : Char) (h : c.isDigit = true) :
    ¬(c = ',') ∧ ¬(c = '.') ∧ ¬(c = '-') ∧ ¬(c = '$') := by
  refine ⟨?_, ?_, ?_, ?_⟩ <;> intro he <;> rw [he] at h <;>
    exact absurd h (by decide)

theorem isDigit_not_ws (c : Char) (h : c.isDigit = true) :
    c.isWhitespace = false := by
  cases hwc : c.isWhitespace
  · rfl
  · exfalso
    simp only [Char.isWhitespace, Bool.or_eq_true, decide_eq_true_eq] at hwc
    rcases hwc with ((h1 | h1) | h1) | h1 <;> subst h1 <;>
      exact absurd h (by decide)

theorem moneyChar_not_ws (c : Char) (h : moneyChar c = true) :
    c.isWhitespace = false := by
  rw [moneyChar, Bool.or_eq_true] at h
  rcases h with h | h
  · exact isDigit_not_ws c h
  · have hc : c = ',' := by simpa using h
    rw [hc]
    decide

theorem parseSigned_no_minus (l : List Char)
    (h : ∀ c, l.head? = some c → ¬(c = '-')) :
    parseSigned l = parseDecimalChars l := by
  cases l with
  | nil => rfl
  | cons c r =>
    simp only [parseSigned]
    rw [if_neg (h c rfl)]

theorem parseDecimalChars_digits (l : List Char) (hne : l ≠ [])
    (hd : l.all (fun c => c.isDigit) = true) :
    parseDecimalChars l = some (mkRat (digitsToNat l) 1) := by
  have hnd : ∀ c ∈ l, ¬(c = '.') := fun c hc =>
    (isDigit_ne c (List.all_eq_true.mp hd c hc)).2.1
  have hie : l.isEmpty = false := by
    cases l
    · exact absurd rfl hne
    · rfl
  simp only [parseDecimalChars, splitAtChar_of_not_mem '.' l hnd]
  rw [if_pos (by rw [hie, hd]; rfl)]

theorem parseDecimalChars_digits_frac (i f : List Char) (hf : f ≠ [])
    (hi : i.all (fun c => c.isDigit) = true)
    (hfd : f.all (fun c => c.isDigit) = true) :
    parseDecimalChars (i ++ '.' :: f)
      = some (mkRat (digitsToNat i * 10 ^ f.length + digitsToNat f)
          (10 ^ f.length)) := by
  have hnd : ∀ c ∈ i, ¬(c = '.') := fun c hc =>
    (isDigit_ne c (List.all_eq_true.mp hi c hc)).2.1
  have hfe : f.isEmpty = false := by
    cases f
    · exact absurd rfl hf
    · rfl
  simp only [parseDecimalChars, splitAtChar_append '.' i f hnd]
  rw [if_pos (by rw [hi, hfd, hfe]; simp)]

theorem mkRat_digits_frac (a b k : ℕ) :
    (mkRat (a * 10 ^ k + b) (10 ^ k) : ℚ) = (a : ℚ) + (b : ℚ) / 10 ^ k := by
  have h10 : ((10 : ℚ)) ^ k ≠ 0 := by positivity
  rw [mkRat_eq_q]
  push_cast
  field_simp

theorem filter_core_rest (core rest : List Char)
    (hcore : ∀ c ∈ core, moneyChar c = true)
    (hrest : ∀ c ∈ rest, c.isDigit = true ∨ c = '.') :
    (core ++ rest).filter (fun c => c ≠ ',')
      = core.filter (fun c => c.isDigit) ++ rest := by
  rw [List.filter_append]
  congr 1
  · apply List.filter_congr
    intro c hc
    have h := hcore c hc
    rw [moneyChar, Bool.or_eq_true] at h
    rcases h with h | h
    · simp [(isDigit_ne c h).1, h]
    · have hc' : c = ',' := by simpa using h
      rw [hc']
      decide
  · rw [List.filter_eq_self]
    intro c hc
    rcases hrest c hc with h | h
    · simpa using (isDigit_ne c h).1
    · rw [h]
      decide

theorem stripChars_decomp (l0 core rest : List Char)
    (hdrop : dropDollar l0 = core ++ rest)
    (hcore : ∀ c ∈ core, moneyChar c = true)
    (hrest : ∀ c ∈ rest, c.isDigit = true ∨ c = '.') :
    stripChars l0 = core.filter (fun c => c.isDigit) ++ rest := by
  have hnodollar : ∀ c ∈ core ++ rest, ¬(c = '$') := by
    intro c hc
    rcases List.mem_append.mp hc with h | h
    · have hm := hcore c h
      rw [moneyChar, Bool.or_eq_true] at hm
      rcases hm with hm | hm
      · exact (isDigit_ne c hm).2.2.2
      · have : c = ',' := by simpa using hm
        rw [this]
        decide
    · rcases hrest c h with hm | hm
      · exact (isDigit_ne c hm).2.2.2
      · rw [hm]
        decide
  cases l0 with
  | nil =>
    have : core ++ rest = [] := hdrop.symm
    rw [List.append_eq_nil] at this
    rw [stripChars, this.1, this.2]
    rfl
  | cons c r =>
    by_cases hc : c = '$'
    · have hr : r = core ++ rest := by rwa [dropDollar, if_pos hc] at hdrop
      rw [stripChars, hc, List.filter_cons_of_pos (by decide), dropDollar,
        if_pos rfl, hr]
      exact filter_core_rest core rest hcore hrest
    · have hr : c :: r = core ++ rest := by rwa [dropDollar, if_neg hc] at hdrop
      rw [stripChars, hr, filter_core_rest core rest hcore hrest]
      apply dropDollar_of_no_dollar
      intro x hx
      rcases List.mem_append.mp hx with h | h
      · exact hnodollar x (List.mem_append_left rest (List.mem_of_mem_filter h))
      · exact hnodollar x (List.mem_append_right core h)

theorem not_blank_of_match (s : String) (hm : matchesMoney s = true) :
    ¬(s.toList.all (fun c => c.isWhitespace) = true) := by
  intro hall
  rw [matchesMoney, Bool.and_eq_true] at hm
  obtain ⟨hcore, _⟩ := hm
  cases hc : (dropDollar s.toList).takeWhile moneyChar with
  | nil =>
    rw [hc] at hcore
    exact absurd hcore (by decide)
  | cons c cs =>
    have hcmem : c ∈ (dropDollar s.toList).takeWhile moneyChar := by
      rw [hc]
      exact List.mem_cons_self c cs
    have hmc : moneyChar c = true := List.mem_takeWhile_imp hcmem
    have hcl : c ∈ dropDollar s.toList := by
      rw [← List.takeWhile_append_dropWhile (p := moneyChar)
        (l := dropDollar s.toList)]
      exact List.mem_append_left _ hcmem
    have hcs : c ∈ s.toList := mem_dropDollar hcl
    have hwc := List.all_eq_true.mp hall c hcs
    rw [moneyChar_not_ws c hmc] at hwc
    exact absurd hwc (by decide)

theorem exists_digit_dropDollar (s : String)
    (hd : s.toList.any (fun c => c.isDigit) = true) :
    ∃ c ∈ dropDollar s.toList, c.isDigit = true := by
  obtain ⟨c, hcs, hcd⟩ := List.any_eq_true.mp hd
  cases hsl : s.toList with
  | nil =>
    rw [hsl] at hcs
    exact absurd hcs (List.not_mem_nil c)
  | cons c0 r =>
    rw [hsl] at hcs
    by_cases h0 : c0 = '$'
    · refine ⟨c, ?_, hcd⟩
      rw [dropDollar, if_pos h0]
      rcases List.mem_cons.mp hcs with he | hr
      · exact absurd (he.trans h0) (isDigit_ne c hcd).2.2.2
      · exact hr
    · refine ⟨c, ?_, hcd⟩
      rw [dropDollar, if_neg h0]
      exact hcs

theorem normalize_eq_of_decomp (s : String) (core rest : List Char)
    (hdrop : dropDollar s.toList = core ++ rest)
    (hcore : ∀ c ∈ core, moneyChar c = true)
    (hrest : fracOk rest = true)
    (hdig : ∃ c ∈ core ++ rest, c.isDigit = true)
    (hnb : ¬(s.toList.all (fun c => c.isWhitespace) = true)) :
    normalize (some s)
      = Except.ok ((digitsToNat (core.filter (fun c => c.isDigit)) : ℚ)
          + fracValue rest) := by
  have hDall : (core.filter (fun c => c.isDigit)).all
      (fun c => c.isDigit) = true := by
    rw [List.all_eq_true]
    intro c hc
    exact (List.mem_filter.mp hc).2
  cases hrc : rest with
  | nil =>
    rw [hrc] at hdrop hdig
    rw [List.append_nil] at hdrop hdig
    have hDne : core.filter (fun c => c.isDigit) ≠ [] := by
      obtain ⟨c, hcc, hcd⟩ := hdig
      have hmem : c ∈ core.filter (fun c => c.isDigit) :=
        List.mem_filter.mpr ⟨hcc, hcd⟩
      intro hnil
      rw [hnil] at hmem
      exact absurd hmem (List.not_mem_nil c)
    have hstrip : stripChars s.toList = core.filter (fun c => c.isDigit) := by
      have := stripChars_decomp s.toList core [] (by rwa [List.append_nil])
        hcore (by intro c hc; exact absurd hc (List.not_mem_nil c))
      rwa [List.append_nil] at this
    have hps : parseSigned (stripChars s.toList)
        = some (mkRat (digitsToNat (core.filter (fun c => c.isDigit))) 1) := by
      rw [hstrip, parseSigned_no_minus, parseDecimalChars_digits _ hDne hDall]
      intro c hc
      cases hDc : core.filter (fun c => c.isDigit) with
      | nil => exact absurd hDc hDne
      | cons d ds =>
        rw [hDc] at hc
        have hcd : c = d := by
          have := hc
          simp only [List.head?] at this
          exact (Option.some_inj.mp this).symm
        have hdd : d.isDigit = true := by
          have : d ∈ core.filter (fun c => c.isDigit) := by
            rw [hDc]
            exact List.mem_cons_self d ds
          exact (List.mem_filter.mp this).2
        rw [hcd]
        exact (isDigit_ne d hdd).2.2.1
    simp only [normalize, if_neg hnb, hps]
    rw [fracValue, Rat.mkRat_one, add_zero]
    norm_cast
  | cons dot f =>
    rw [hrc] at hdrop hrest
    rw [fracOk] at hrest
    rw [Bool.and_eq_true, Bool.and_eq_true] at hrest
    obtain ⟨⟨h2, h3⟩, hfd⟩ := hrest
    have hdot : dot = '.' := by simpa using h2
    have hfne : f ≠ [] := by
      intro hnil
      rw [hnil] at h3
      exact absurd h3 (by decide)
    rw [hdot] at hdrop
    have hstrip : stripChars s.toList
        = core.filter (fun c => c.isDigit) ++ '.' :: f := by
      apply stripChars_decomp s.toList core ('.' :: f) hdrop hcore
      intro c hc
      rcases List.mem_cons.mp hc with he | hh
      · exact Or.inr he
      · exact Or.inl (List.all_eq_true.mp hfd c hh)
    have hps : parseSigned (stripChars s.toList)
        = some (mkRat (digitsToNat (core.filter (fun c => c.isDigit))
            * 10 ^ f.length + digitsToNat f) (10 ^ f.length)) := by
      rw [hstrip, parseSigned_no_minus,
        parseDecimalChars_digits_frac _ f hfne hDall hfd]
      intro c hc
      cases hDc : core.filter (fun c => c.isDigit) with
      | nil =>
        rw [hDc, List.nil_append] at hc
        have : c = '.' := by
          simp only [List.head?] at hc
          exact (Option.some_inj.mp hc).symm
        rw [this]
        decide
      | cons d ds =>
        rw [hDc, List.cons_append] at hc
        have hcd : c = d := by
          simp only [List.head?] at hc
          exact (Option.some_inj.mp hc).symm
        have hdd : d.isDigit = true := by
          have : d ∈ core.filter (fun c => c.isDigit) := by
            rw [hDc]
            exact List.mem_cons_self d ds
          exact (List.mem_filter.mp this).2
        rw [hcd]
        exact (isDigit_ne d hdd).2.2.1
    simp only [normalize, if_neg hnb, hps]
    rw [hdot, fracValue, mkRat_digits_frac]

/-- C3 (amended): for every string matching
`[$]?[0-9,]+(\.[0-9]+)?` that contains at least one digit, the
normalizer returns the base-10 value of the string with every `,` and
the leading `$` removed; the empty string and an absent cell
normalize to 0.  (The all-comma strings admitted by the regex, such
as `","`, contain no digit and fail with a `ParseError` instead —
see the counterexample.) -/
theorem c3_normalizer_money_strings :
    (∀ s : String, matchesMoney s = true →
      s.toList.any (fun c => c.isDigit) = true →
      normalize (some s) = Except.ok (moneyValue s))
    ∧ normalize (some ("")) = Except.ok 0
    ∧ normalize none = Except.ok 0 := by
  refine ⟨?_, rfl, rfl⟩
  intro s hm hd
  have hnb := not_blank_of_match s hm
  rw [matchesMoney, Bool.and_eq_true] at hm
  have hfrac : fracOk ((dropDollar s.toList).dropWhile moneyChar) = true := hm.2
  have hsplit : dropDollar s.toList
      = (dropDollar s.toList).takeWhile moneyChar
        ++ (dropDollar s.toList).dropWhile moneyChar :=
    (List.takeWhile_append_dropWhile moneyChar (dropDollar s.toList)).symm
  have hdig : ∃ c ∈ (dropDollar s.toList).takeWhile moneyChar
      ++ (dropDollar s.toList).dropWhile moneyChar, c.isDigit = true := by
    rw [← hsplit]
    exact exists_digit_dropDollar s hd
  rw [moneyValue]
  exact normalize_eq_of_decomp s _ _ hsplit
    (fun c hc => List.mem_takeWhile_imp hc) hfrac hdig hnb

/-- C3 counterexample: the string `","` matches the regex
`[$]?[0-9,]+(\.[0-9]+)?` but the normalizer fails with a `ParseError`
on it (stripping leaves nothing to parse), so it does not return the
claimed numeric value. -/
theorem c3_counterexample :
    matchesMoney (",") = true
    ∧ normalize (some (",")) = Except.error ⟨(",")⟩ :=
  ⟨by decide, by decide⟩

/-- Witness for C3: `$1,234.56` matches the regex and normalizes to
its numeric value 1234.56. -/
theorem c3_witness :
    matchesMoney ("$1,234.56") = true
    ∧ (("$1,234.56" : String)).toList.any (fun c => c.isDigit) = true
    ∧ normalize (some ("$1,234.56")) = Except.ok (moneyValue ("$1,234.56"))
    ∧ moneyValue ("$1,234.56") = mkRat 123456 100 := by
  refine ⟨by decide, by decide, ?_, ?_⟩
  · exact c3_normalizer_money_strings.1 ("$1,234.56") (by decide) (by decide)
  · have h := c3_normalizer_money_strings.1 ("$1,234.56") (by decide) (by decide)
    have h2 : normalize (some ("$1,234.56")) = Except.ok (mkRat 123456 100) := by
      decide
    rw [h] at h2
    exact Except.ok.inj h2

end FinanceReview
